import Mathlib

/-
  Shallow embedding of the arxiv metadata and citation pipeline
  (class ArxivApi: fetchArxivMetadata, fetchCitationInfo, parseArxivResponse,
  formatAbstract, getInfluentialPapers).  Machine strings are modelled as
  Lean strings (lists of Char); the HTTP transport and the XML/JSON parsers
  provided by the host are modelled as explicit inputs describing the
  response the code observes.
-/

/-- The character class matched by the ECMAScript regex class of whitespace
and trimmed by the trim method: TAB, LF, VT, FF, CR, SP, NBSP, the Unicode
space separators, the line and paragraph separators, and the BOM. -/
def isJsWhitespace (c : Char) : Bool :=
  c.toNat = 9 || c.toNat = 10 || c.toNat = 11 || c.toNat = 12 || c.toNat = 13 ||
  c.toNat = 32 || c.toNat = 160 || c.toNat = 5760 ||
  (8192 ≤ c.toNat && c.toNat ≤ 8202) ||
  c.toNat = 8232 || c.toNat = 8233 || c.toNat = 8239 || c.toNat = 8287 ||
  c.toNat = 12288 || c.toNat = 65279

/-- One left-to-right pass replacing every maximal run of characters
satisfying p by the single character rep: the semantics of the global
regex replacement of one-or-more-p by rep.  The flag records whether the
previous character was inside a run. -/
def squeezeAux (p : Char → Bool) (rep : Char) : Bool → List Char → List Char
  | _, [] => []
  | b, c :: cs =>
    if p c then
      if b then squeezeAux p rep true cs else rep :: squeezeAux p rep true cs
    else c :: squeezeAux p rep false cs

/-- The trim method of ECMAScript strings: remove leading and trailing
whitespace. -/
def jsTrimL (l : List Char) : List Char :=
  ((l.dropWhile isJsWhitespace).reverse.dropWhile isJsWhitespace).reverse

/-- String-level wrapper of jsTrimL. -/
def jsTrimStr (s : String) : String := ⟨jsTrimL s.data⟩

/-- Replacement of every run of LF by a single LF, as in the first
replace call of formatAbstract. -/
def collapseNewlines (l : List Char) : List Char :=
  squeezeAux (fun c => c == '\n') '\n' false l

/-- Replacement of every run of whitespace by a single space, as in the
second replace call of formatAbstract. -/
def collapseWhitespace (l : List Char) : List Char :=
  squeezeAux isJsWhitespace ' ' false l

/-- The split method on the single-character separator LF: the ECMAScript
split never returns an empty array, and a trailing separator contributes a
final empty field. -/
def splitNl : List Char → List (List Char)
  | [] => [[]]
  | c :: cs =>
    if c == '\n' then [] :: splitNl cs
    else
      match splitNl cs with
      | [] => [[c]]
      | p :: ps => (c :: p) :: ps

/-- The body of ArxivApi.formatAbstract on character lists: trim, collapse
newline runs, collapse whitespace runs, split on LF, trim each piece, join
with a blank line. -/
def formatAbstractL (l : List Char) : List Char :=
  List.intercalate ['\n', '\n']
    ((splitNl (collapseWhitespace (collapseNewlines (jsTrimL l)))).map jsTrimL)

/-- ArxivApi.formatAbstract. -/
def formatAbstract (s : String) : String := ⟨formatAbstractL s.data⟩

/-- Spec-side normalization for the refinement comparison: the trimmed
input with every maximal run of whitespace replaced by a single space. -/
def specTrimCollapse (s : String) : String := ⟨collapseWhitespace (jsTrimL s.data)⟩

/-- ECMAScript falsy-or on strings: the empty string selects the fallback. -/
def jsOrElse (s fallback : String) : String := if s = "" then fallback else s

/-- The part of the published text before the first letter T: the head of
the split of the text on T. -/
def takeBeforeT (s : String) : String := ⟨s.data.takeWhile (fun c => !(c == 'T'))⟩

/-- One entry element of the Atom feed as the code observes it through the
DOM: each child element is optional (none models a missing element), and
the author name texts are collected in document order. -/
structure AtomEntry where
  title : Option String
  idElem : Option String
  published : Option String
  authorNames : List String
  summary : Option String
deriving DecidableEq, Repr

/-- The parsed XML document: the entry elements in document order.  The
querySelector call of the code selects the first one. -/
structure AtomDoc where
  entries : List AtomEntry
deriving DecidableEq, Repr

/-- The ArxivMetadataType record produced by parseArxivResponse. -/
structure ArxivMetadataType where
  title : String
  paperLink : String
  publishDate : String
  authors : String
  abstract : String
deriving DecidableEq, Repr

/-- The error taxonomy of the metadata path, named as in the spec: the code
raises distinct errors at the three throw sites of fetchArxivMetadata and
parseArxivResponse. -/
inductive ArxivError where
  | invalidInput : ArxivError
  | upstreamError : Nat → ArxivError
  | notFound : ArxivError
deriving DecidableEq, Repr

/-- The field extraction of ArxivApi.parseArxivResponse on one entry:
title is trimmed text with a literal fallback on a missing element or
empty trimmed text, paperLink is the raw id text or empty, publishDate is
the text before the first T with a literal fallback, authors joins the
author name texts with a comma, and abstract runs formatAbstract on the
summary text or its literal fallback. -/
def parseEntry (e : AtomEntry) : ArxivMetadataType where
  title :=
    match e.title with
    | none => "제목 없음"
    | some t => jsOrElse (jsTrimStr t) "제목 없음"
  paperLink := e.idElem.getD ""
  publishDate :=
    match e.published with
    | none => "날짜 없음"
    | some t => jsOrElse (takeBeforeT t) "날짜 없음"
  authors := String.intercalate ", " e.authorNames
  abstract :=
    formatAbstract
      (match e.summary with
       | none => "Abstract 없음"
       | some t => jsOrElse t "Abstract 없음")

/-- ArxivApi.parseArxivResponse: select the first entry element, fail with
notFound when there is none, otherwise extract the record. -/
def parseArxivResponse (doc : AtomDoc) : Except ArxivError ArxivMetadataType :=
  match doc.entries.head? with
  | none => .error .notFound
  | some e => .ok (parseEntry e)

/-- ArxivApi.fetchArxivMetadata, with the transport response made explicit:
extracted is the result of extractArxivId on the input url (none models the
null return, and the falsy guard of the code also rejects an empty string),
status and doc describe the response of the metadata endpoint. -/
def fetchArxivMetadata (extracted : Option String) (status : Nat) (doc : AtomDoc) :
    Except ArxivError ArxivMetadataType :=
  match extracted with
  | none => .error .invalidInput
  | some s =>
    if s = "" then .error .invalidInput
    else if status ≠ 200 then .error (.upstreamError status)
    else parseArxivResponse doc

/-- An author record inside a citation-endpoint paper record. -/
structure RawAuthor where
  name : String
deriving DecidableEq, Repr

/-- A raw paper record of the citation endpoint, with the attributes the
code copies; authors is optional, matching the optional chaining in the
code. -/
structure RawPaper where
  paperId : String
  title : String
  url : String
  venue : String
  year : Int
  authors : Option (List RawAuthor)
  arxivId : Option String
  doi : Option String
  isInfluential : Bool
  citationCount : Int
  intent : List String
deriving DecidableEq, Repr

/-- The reshaped influential-paper record returned by
getInfluentialPapers. -/
structure InfluentialPaper where
  paperId : String
  title : String
  url : String
  venue : String
  year : Int
  authors : String
  arxivId : Option String
  doi : Option String
  isInfluential : Bool
  citationCount : Int
  intent : List String
deriving DecidableEq, Repr

/-- The reshaping of one retained paper record in
ArxivApi.getInfluentialPapers: every attribute is copied, and the author
list is flattened to a comma-joined string of names, with the empty string
when the list is absent. -/
def reshape (p : RawPaper) : InfluentialPaper where
  paperId := p.paperId
  title := p.title
  url := p.url
  venue := p.venue
  year := p.year
  authors :=
    match p.authors with
    | none => ""
    | some as => String.intercalate ", " (as.map RawAuthor.name)
  arxivId := p.arxivId
  doi := p.doi
  isInfluential := p.isInfluential
  citationCount := p.citationCount
  intent := p.intent

/-- ArxivApi.getInfluentialPapers: an absent list yields the empty list
through the falsy-or at the end of the chain; otherwise the influential
records are kept in order and reshaped. -/
def getInfluentialPapers (papers : Option (List RawPaper)) : List InfluentialPaper :=
  match papers with
  | none => []
  | some ps => (ps.filter (fun p => p.isInfluential)).map reshape

/-- The fields of the citation-endpoint JSON body that the code reads;
each is optional, matching absence in the parsed object. -/
structure CitationData where
  numCitedBy : Option Int
  numCiting : Option Int
  citations : Option (List RawPaper)
  references : Option (List RawPaper)
deriving DecidableEq, Repr

/-- The behaviour of the citation-endpoint transport as the code observes
it: the request throws, or a response arrives with a status and a body
whose JSON parse either fails (none) or yields the fields read by the
code. -/
inductive CitationFetchOutcome where
  | netThrow : CitationFetchOutcome
  | resp : Nat → Option CitationData → CitationFetchOutcome
deriving DecidableEq, Repr

/-- The CitationInfo record. -/
structure CitationInfo where
  numCitedBy : Int
  numCiting : Int
  influentialCitations : List InfluentialPaper
  influentialReferences : List InfluentialPaper
deriving DecidableEq, Repr

/-- The zero-value CitationInfo returned on every failure path. -/
def zeroCitationInfo : CitationInfo where
  numCitedBy := 0
  numCiting := 0
  influentialCitations := []
  influentialReferences := []

/-- ECMAScript falsy-or against 0 on an optional number: an absent field
defaults to 0, and the number 0 maps to 0 either way. -/
def jsOrZero (v : Option Int) : Int := v.getD 0

/-- ArxivApi.fetchCitationInfo over the transport outcome: a throw is
caught and yields the zero record, a failed JSON parse of a 200 body is
caught and yields the zero record, a non-200 status falls through to the
zero record, and a parsed 200 body is converted field by field. -/
def fetchCitationInfo (outcome : CitationFetchOutcome) : CitationInfo :=
  match outcome with
  | .netThrow => zeroCitationInfo
  | .resp status body =>
    if status = 200 then
      match body with
      | none => zeroCitationInfo
      | some d =>
        { numCitedBy := jsOrZero d.numCitedBy
          numCiting := jsOrZero d.numCiting
          influentialCitations := getInfluentialPapers d.citations
          influentialReferences := getInfluentialPapers d.references }
    else zeroCitationInfo

/-- Absence of leading whitespace, phrased on the head. -/
def noLeadWs (l : List Char) : Prop :=
  l = [] ∨ ∃ a as, l = a :: as ∧ isJsWhitespace a = false

/-- Absence of trailing whitespace, phrased on the last element. -/
def noTrailWs (l : List Char) : Prop :=
  l = [] ∨ ∃ m c, l = m ++ [c] ∧ isJsWhitespace c = false

/-- Sample entry with every optional element missing and no authors. -/
def entryEmptyE : AtomEntry where
  title := none
  idElem := none
  published := none
  authorNames := []
  summary := none

/-- Sample entry whose id element text carries surrounding spaces. -/
def entrySpaceId : AtomEntry where
  title := some "T"
  idElem := some " x "
  published := some "2024-04-25T00:00:00Z"
  authorNames := ["A"]
  summary := some "S"

/-- Sample citation body with every field absent. -/
def dNone : CitationData where
  numCitedBy := none
  numCiting := none
  citations := none
  references := none

/-- Sample citation body carrying a negative count. -/
def dNeg : CitationData where
  numCitedBy := some (-1)
  numCiting := some 0
  citations := none
  references := none

/-! Helper lemmas about the whitespace machinery. -/

/-- Squeezing runs of q-characters first does not change a later squeeze of
runs of p-characters, when q-characters are p-characters and the q
replacement character is a p-character. -/
theorem squeezeAux_squeezeAux (p q : Char → Bool) (r1 r2 : Char)
    (hq : ∀ c, q c = true → p c = true) (hr1 : p r1 = true) :
    ∀ l : List Char,
      (∀ b, squeezeAux p r2 true (squeezeAux q r1 b l) = squeezeAux p r2 true l) ∧
      squeezeAux p r2 false (squeezeAux q r1 false l) = squeezeAux p r2 false l := by
  intro l
  induction l with
  | nil => exact ⟨fun _ => rfl, rfl⟩
  | cons a as ih =>
    constructor
    · intro b
      cases hqa : q a with
      | true =>
        have hpa : p a = true := hq a hqa
        cases b <;> simp [squeezeAux, hqa, hpa, hr1, ih.1 true]
      | false =>
        cases hpa : p a with
        | true => simp [squeezeAux, hqa, hpa, ih.1 false]
        | false => simp [squeezeAux, hqa, hpa, ih.2]
    · cases hqa : q a with
      | true =>
        have hpa : p a = true := hq a hqa
        simp [squeezeAux, hqa, hpa, hr1, ih.1 true]
      | false =>
        cases hpa : p a with
        | true => simp [squeezeAux, hqa, hpa, ih.1 false]
        | false => simp [squeezeAux, hqa, hpa, ih.2]

/-- Every character emitted by a squeeze pass is the replacement character
or a character outside the squeezed class. -/
theorem mem_squeezeAux (p : Char → Bool) (r : Char) :
    ∀ (l : List Char) (b : Bool) (c : Char), c ∈ squeezeAux p r b l → c = r ∨ p c = false := by
  intro l
  induction l with
  | nil =>
    intro b c h
    simp [squeezeAux] at h
  | cons a as ih =>
    intro b c h
    cases hpa : p a with
    | true =>
      cases b with
      | true =>
        simp only [squeezeAux, hpa, if_true] at h
        exact ih true c h
      | false =>
        simp [squeezeAux, hpa] at h
        rcases h with h1 | h2
        · exact Or.inl h1
        · exact ih true c h2
    | false =>
      simp [squeezeAux, hpa] at h
      rcases h with h1 | h2
      · subst h1; exact Or.inr hpa
      · exact ih false c h2

/-- Splitting a newline-free list on newlines yields that list as the one
field. -/
theorem splitNl_no_newline (l : List Char) (h : ∀ c ∈ l, (c == '\n') = false) :
    splitNl l = [l] := by
  induction l with
  | nil => rfl
  | cons a as ih =>
    have ha : (a == '\n') = false := h a (List.mem_cons_self a as)
    have ih2 : splitNl as = [as] := ih (fun c hc => h c (List.mem_cons_of_mem a hc))
    simp [splitNl, ha, ih2]

/-- The result of dropWhile is empty or starts with a character failing the
predicate. -/
theorem dropWhile_cases (p : Char → Bool) :
    ∀ l : List Char, l.dropWhile p = [] ∨
      ∃ a as, l.dropWhile p = a :: as ∧ p a = false := by
  intro l
  induction l with
  | nil => exact Or.inl rfl
  | cons a as ih =>
    cases hpa : p a with
    | true => simpa [List.dropWhile_cons, hpa] using ih
    | false => exact Or.inr ⟨a, as, by simp [List.dropWhile_cons, hpa], hpa⟩

/-- The trimmed list carries no trailing whitespace. -/
theorem jsTrimL_noTrail (l : List Char) : noTrailWs (jsTrimL l) := by
  unfold jsTrimL noTrailWs
  rcases dropWhile_cases isJsWhitespace (l.dropWhile isJsWhitespace).reverse with h | ⟨a, as, h, hpa⟩
  · left; rw [h]; rfl
  · right; exact ⟨as.reverse, a, by rw [h]; simp, hpa⟩

/-- The trimmed list carries no leading whitespace. -/
theorem jsTrimL_noLead (l : List Char) : noLeadWs (jsTrimL l) := by
  have hsplit := List.takeWhile_append_dropWhile
    (p := isJsWhitespace) ((l.dropWhile isJsWhitespace).reverse)
  have hd : jsTrimL l ++ ((l.dropWhile isJsWhitespace).reverse.takeWhile isJsWhitespace).reverse
      = l.dropWhile isJsWhitespace := by
    unfold jsTrimL
    rw [← List.reverse_append, hsplit, List.reverse_reverse]
  cases he : jsTrimL l with
  | nil => exact Or.inl rfl
  | cons x xs =>
    rcases dropWhile_cases isJsWhitespace l with h0 | ⟨a, as, h0, hpa⟩
    · rw [h0, he] at hd
      exact absurd hd (by simp)
    · rw [h0, he, List.cons_append] at hd
      injection hd with h1 _
      exact Or.inr ⟨x, xs, rfl, h1 ▸ hpa⟩

/-- Trimming a list with no leading and no trailing whitespace is the
identity. -/
theorem jsTrimL_of_clean (l : List Char) (h1 : noLeadWs l) (h2 : noTrailWs l) :
    jsTrimL l = l := by
  rcases h1 with rfl | ⟨a, as, rfl, hpa⟩
  · rfl
  · rcases h2 with habs | ⟨m, c, hmc, hpc⟩
    · exact absurd habs (by simp)
    · unfold jsTrimL
      rw [List.dropWhile_cons_of_neg (by simp [hpa]), hmc, List.reverse_append]
      simp only [List.reverse_cons, List.reverse_nil, List.nil_append, List.singleton_append]
      rw [List.dropWhile_cons_of_neg (by simp [hpc])]
      simp

/-- Squeezing whitespace preserves the absence of leading whitespace. -/
theorem squeezeAux_noLead (l : List Char) (h : noLeadWs l) :
    noLeadWs (collapseWhitespace l) := by
  rcases h with rfl | ⟨a, as, rfl, hpa⟩
  · exact Or.inl rfl
  · exact Or.inr ⟨a, squeezeAux isJsWhitespace ' ' false as,
      by simp [collapseWhitespace, squeezeAux, hpa], hpa⟩

/-- A squeeze pass on a list ending with a character outside the class
ends with that same character. -/
theorem squeezeAux_last (p : Char → Bool) (r : Char) :
    ∀ (m : List Char) (c : Char), p c = false → ∀ b,
      ∃ m2, squeezeAux p r b (m ++ [c]) = m2 ++ [c] := by
  intro m
  induction m with
  | nil =>
    intro c hpc b
    exact ⟨[], by simp [squeezeAux, hpc]⟩
  | cons a as ih =>
    intro c hpc b
    cases hpa : p a with
    | true =>
      cases b with
      | true =>
        obtain ⟨m2, hm2⟩ := ih c hpc true
        exact ⟨m2, by simp [squeezeAux, hpa, hm2]⟩
      | false =>
        obtain ⟨m2, hm2⟩ := ih c hpc true
        exact ⟨r :: m2, by simp [squeezeAux, hpa, hm2]⟩
    | false =>
      obtain ⟨m2, hm2⟩ := ih c hpc false
      exact ⟨a :: m2, by simp [squeezeAux, hpa, hm2]⟩

/-- Squeezing whitespace preserves the absence of trailing whitespace. -/
theorem squeezeAux_noTrail (l : List Char) (h : noTrailWs l) :
    noTrailWs (collapseWhitespace l) := by
  rcases h with rfl | ⟨m, c, rfl, hpc⟩
  · exact Or.inl rfl
  · obtain ⟨m2, hm2⟩ := squeezeAux_last isJsWhitespace ' ' m c hpc false
    exact Or.inr ⟨m2, c, hm2, hpc⟩

/-- A squeeze pass whose replacement character is inside the class is
idempotent. -/
theorem squeezeAux_idem (p : Char → Bool) (r : Char) (hr : p r = true) :
    ∀ l : List Char,
      squeezeAux p r false (squeezeAux p r false l) = squeezeAux p r false l ∧
      squeezeAux p r true (squeezeAux p r true l) = squeezeAux p r true l := by
  intro l
  induction l with
  | nil => exact ⟨rfl, rfl⟩
  | cons a as ih =>
    cases hpa : p a with
    | true =>
      constructor
      · simp [squeezeAux, hpa, hr, ih.2]
      · simp [squeezeAux, hpa, ih.2]
    | false =>
      constructor
      · simp [squeezeAux, hpa, ih.1]
      · simp [squeezeAux, hpa, ih.1]

/-- Joining a single field with the blank-line separator yields the field
itself. -/
theorem intercalate_singleton_nl (x : List Char) :
    List.intercalate ['\n', '\n'] [x] = x := by
  simp [List.intercalate]

/-- The whitespace-collapsed list contains no newline. -/
theorem collapseWhitespace_no_newline (l : List Char) :
    ∀ c ∈ collapseWhitespace l, (c == '\n') = false := by
  intro c hc
  rcases mem_squeezeAux isJsWhitespace ' ' l false c hc with rfl | hpc
  · decide
  · cases hbe : (c == '\n') with
    | false => rfl
    | true =>
      have hceq : c = '\n' := eq_of_beq hbe
      subst hceq
      exact absurd hpc (by decide)

/-- The formatAbstract pipeline computes exactly the trimmed input with
whitespace runs collapsed to single spaces: the whitespace collapse
removes every newline, so the split produces one field and the final join
and trim are the identity. -/
theorem formatAbstractL_eq (l : List Char) :
    formatAbstractL l = collapseWhitespace (jsTrimL l) := by
  have h1 : collapseWhitespace (collapseNewlines (jsTrimL l)) = collapseWhitespace (jsTrimL l) :=
    (squeezeAux_squeezeAux isJsWhitespace (fun c => c == '\n') '\n' ' '
      (fun c hc => by rw [eq_of_beq hc]; decide) (by decide) (jsTrimL l)).2
  have h3 : jsTrimL (collapseWhitespace (jsTrimL l)) = collapseWhitespace (jsTrimL l) :=
    jsTrimL_of_clean _ (squeezeAux_noLead _ (jsTrimL_noLead l)) (squeezeAux_noTrail _ (jsTrimL_noTrail l))
  unfold formatAbstractL
  rw [h1, splitNl_no_newline _ (collapseWhitespace_no_newline _)]
  simp [h3, intercalate_singleton_nl]

/-- The formatAbstract pipeline is idempotent on character lists. -/
theorem formatAbstractL_idem (l : List Char) :
    formatAbstractL (formatAbstractL l) = formatAbstractL l := by
  rw [formatAbstractL_eq, formatAbstractL_eq]
  have h3 : jsTrimL (collapseWhitespace (jsTrimL l)) = collapseWhitespace (jsTrimL l) :=
    jsTrimL_of_clean _ (squeezeAux_noLead _ (jsTrimL_noLead l)) (squeezeAux_noTrail _ (jsTrimL_noTrail l))
  rw [h3]
  exact (squeezeAux_idem isJsWhitespace ' ' (by decide) (jsTrimL l)).1

/-! Claim theorems. -/

/-- C1: for every behaviour of the citation transport, fetchCitationInfo
returns a CitationInfo (the embedding is a total function) and on each
failure case (network throw, non-200 status, unparseable 200 body) the
result is exactly the zero-value record. -/
theorem fetchCitationInfo_never_raises :
    fetchCitationInfo .netThrow = zeroCitationInfo ∧
    (∀ (status : Nat) (body : Option CitationData),
      status ≠ 200 → fetchCitationInfo (.resp status body) = zeroCitationInfo) ∧
    (∀ status : Nat, fetchCitationInfo (.resp status none) = zeroCitationInfo) := by
  refine ⟨rfl, ?_, ?_⟩
  · intro status body h
    simp [fetchCitationInfo, h]
  · intro status
    by_cases h : status = 200 <;> simp [fetchCitationInfo, h]

/-- Witness for C1 at a concrete failing status. -/
theorem fetchCitationInfo_never_raises_witness :
    fetchCitationInfo (.resp 404 (some dNone)) = zeroCitationInfo :=
  fetchCitationInfo_never_raises.2.1 404 (some dNone) (by decide)

/-- C2: error taxonomy of fetchArxivMetadata, under the assumption that
identifier extraction never yields the empty string: invalidInput exactly
on failed extraction, upstreamError carrying the status exactly on a
non-200 response, notFound exactly on a 200 response with no entry, and
success on the first entry otherwise. -/
theorem fetchArxivMetadata_error_taxonomy (extracted : Option String) (status : Nat)
    (doc : AtomDoc) (hid : extracted ≠ some "") :
    (fetchArxivMetadata extracted status doc = .error .invalidInput ↔ extracted = none) ∧
    ((∃ st, fetchArxivMetadata extracted status doc = .error (.upstreamError st)) ↔
      (extracted ≠ none ∧ status ≠ 200)) ∧
    (∀ st, fetchArxivMetadata extracted status doc = .error (.upstreamError st) → st = status) ∧
    (fetchArxivMetadata extracted status doc = .error .notFound ↔
      (extracted ≠ none ∧ status = 200 ∧ doc.entries = [])) ∧
    (∀ e rest, doc.entries = e :: rest → extracted ≠ none → status = 200 →
      fetchArxivMetadata extracted status doc = .ok (parseEntry e)) := by
  cases extracted with
  | none =>
    refine ⟨by simp [fetchArxivMetadata], by simp [fetchArxivMetadata], ?_,
      by simp [fetchArxivMetadata], ?_⟩
    · intro st h
      simp [fetchArxivMetadata] at h
    · intro e rest _ hne
      exact absurd rfl hne
  | some s =>
    have hs : ¬ (s = "") := fun h => hid (by rw [h])
    by_cases h200 : status = 200
    · subst h200
      cases hentries : doc.entries with
      | nil =>
        refine ⟨?_, ?_, ?_, ?_, ?_⟩
        · simp [fetchArxivMetadata, hs, parseArxivResponse, hentries]
        · simp [fetchArxivMetadata, hs, parseArxivResponse, hentries]
        · intro st h
          simp [fetchArxivMetadata, hs, parseArxivResponse, hentries] at h
        · simp [fetchArxivMetadata, hs, parseArxivResponse, hentries]
        · intro e rest he
          exact List.noConfusion he
      | cons e0 rest0 =>
        refine ⟨?_, ?_, ?_, ?_, ?_⟩
        · simp [fetchArxivMetadata, hs, parseArxivResponse, hentries]
        · simp [fetchArxivMetadata, hs, parseArxivResponse, hentries]
        · intro st h
          simp [fetchArxivMetadata, hs, parseArxivResponse, hentries] at h
        · simp [fetchArxivMetadata, hs, parseArxivResponse, hentries]
        · intro e rest he _ _
          injection he with h1 _
          subst h1
          simp [fetchArxivMetadata, hs, parseArxivResponse, hentries]
    · refine ⟨?_, ?_, ?_, ?_, ?_⟩
      · simp [fetchArxivMetadata, hs, h200]
      · simp [fetchArxivMetadata, hs, h200]
      · intro st h
        simp [fetchArxivMetadata, hs, h200] at h
        omega
      · simp [fetchArxivMetadata, hs, h200]
      · intro e rest _ _ h2
        exact absurd h2 h200

/-- Witness for C2 at concrete inputs: a 503 response yields an upstream
error, and a failed extraction yields invalidInput. -/
theorem fetchArxivMetadata_error_taxonomy_witness :
    (∃ st, fetchArxivMetadata (some "2404.16260") 503 (AtomDoc.mk []) =
      .error (.upstreamError st)) ∧
    fetchArxivMetadata none 200 (AtomDoc.mk []) = .error .invalidInput :=
  ⟨(fetchArxivMetadata_error_taxonomy (some "2404.16260") 503 (AtomDoc.mk [])
      (by decide)).2.1.mpr ⟨by decide, by decide⟩,
   (fetchArxivMetadata_error_taxonomy none 200 (AtomDoc.mk [])
      (by decide)).1.mpr rfl⟩

/-- C3 counterexample: a source abstract of two pieces separated by a
newline does not come out with a blank line between them; the whitespace
collapse has already turned the newline into a space. -/
theorem formatAbstract_paragraph_counterexample :
    formatAbstract "a\nb" = "a b" ∧ formatAbstract "a\nb" ≠ "a\n\nb" := by
  constructor
  · decide
  · decide

/-- C3 amended: formatAbstract computes the stated step sequence, but the
whitespace collapse removes every newline before the split, so the split
always yields exactly one paragraph and the blank-line join returns that
single trimmed paragraph. -/
theorem formatAbstract_single_paragraph (s : String) :
    ∃ p, splitNl (collapseWhitespace (collapseNewlines (jsTrimL s.data))) = [p] ∧
      formatAbstract s = ⟨jsTrimL p⟩ := by
  refine ⟨collapseWhitespace (collapseNewlines (jsTrimL s.data)),
    splitNl_no_newline _ (collapseWhitespace_no_newline _), ?_⟩
  show String.mk (formatAbstractL s.data) = _
  unfold formatAbstractL
  rw [splitNl_no_newline _ (collapseWhitespace_no_newline _)]
  simp [intercalate_singleton_nl]

/-- C4: the output of formatAbstract contains no newline, and the whole
pipeline equals trimming followed by collapsing each maximal whitespace
run to a single space. -/
theorem formatAbstract_no_newline_refines (s : String) :
    ((formatAbstract s).data.all (fun c => !(c == '\n'))) = true ∧
    formatAbstract s = specTrimCollapse s := by
  constructor
  · rw [List.all_eq_true]
    intro c hc
    have hc2 : c ∈ collapseWhitespace (jsTrimL s.data) := by
      have hdata : (formatAbstract s).data = formatAbstractL s.data := rfl
      rw [hdata, formatAbstractL_eq] at hc
      exact hc
    simp [collapseWhitespace_no_newline _ c hc2]
  · show String.mk (formatAbstractL s.data) = specTrimCollapse s
    rw [formatAbstractL_eq]
    rfl

/-- C5: abstract normalization is idempotent. -/
theorem formatAbstract_idem (s : String) :
    formatAbstract (formatAbstract s) = formatAbstract s := by
  show String.mk (formatAbstractL (formatAbstractL s.data)) = String.mk (formatAbstractL s.data)
  rw [formatAbstractL_idem]

/-- C6 counterexample: the id element text is copied into paperLink
without trimming, so a feed whose id text carries surrounding spaces
refutes the claim that every field is trimmed. -/
theorem fetch_verbatim_counterexample :
    fetchArxivMetadata (some "2404.16260") 200 (AtomDoc.mk [entrySpaceId]) =
      .ok (parseEntry entrySpaceId) ∧
    (parseEntry entrySpaceId).paperLink = " x " ∧
    jsTrimStr " x " = "x" ∧
    (parseEntry entrySpaceId).paperLink ≠ jsTrimStr " x " := by
  refine ⟨rfl, rfl, by decide, by decide⟩

/-- C6 amended: with every element present and the guarded texts nonempty,
the result populates title with the trimmed text, paperLink with the raw
id text, publishDate with the text before the first T, authors with the
comma-joined names, and abstract with the normalized summary. -/
theorem fetchArxivMetadata_all_fields (idstr t i pub s : String) (names : List String)
    (hidne : idstr ≠ "") (ht : jsTrimStr t ≠ "") (hp : takeBeforeT pub ≠ "") (hs : s ≠ "") :
    fetchArxivMetadata (some idstr) 200
      (AtomDoc.mk [⟨some t, some i, some pub, names, some s⟩]) =
      .ok { title := jsTrimStr t, paperLink := i, publishDate := takeBeforeT pub,
            authors := String.intercalate ", " names, abstract := formatAbstract s } := by
  simp [fetchArxivMetadata, hidne, parseArxivResponse, parseEntry, jsOrElse, ht, hp, hs]

/-- Witness for C6 amended at a concrete feed. -/
theorem fetchArxivMetadata_all_fields_witness :
    fetchArxivMetadata (some "2404.16260") 200
      (AtomDoc.mk [⟨some " A Title ", some "http://arxiv.org/abs/2404.16260v1",
        some "2024-04-25T01:02:03Z", ["Ann", "Bo"], some "Hello  world"⟩]) =
      .ok { title := jsTrimStr " A Title ",
            paperLink := "http://arxiv.org/abs/2404.16260v1",
            publishDate := takeBeforeT "2024-04-25T01:02:03Z",
            authors := String.intercalate ", " ["Ann", "Bo"],
            abstract := formatAbstract "Hello  world" } :=
  fetchArxivMetadata_all_fields "2404.16260" " A Title " "http://arxiv.org/abs/2404.16260v1"
    "2024-04-25T01:02:03Z" "Hello  world" ["Ann", "Bo"]
    (by decide) (by decide) (by decide) (by decide)

/-- C7: once an entry exists parsing succeeds, and each of title, abstract
and publishDate falls back to its literal default when its element is
missing, while a missing id element yields the empty paperLink. -/
theorem parse_fallback_defaults (e : AtomEntry) (rest : List AtomEntry) :
    parseArxivResponse (AtomDoc.mk (e :: rest)) = .ok (parseEntry e) ∧
    (e.title = none → (parseEntry e).title = "제목 없음") ∧
    (e.summary = none → (parseEntry e).abstract = formatAbstract "Abstract 없음") ∧
    (e.published = none → (parseEntry e).publishDate = "날짜 없음") ∧
    (e.idElem = none → (parseEntry e).paperLink = "") := by
  refine ⟨rfl, ?_, ?_, ?_, ?_⟩ <;> intro h <;> simp [parseEntry, h]

/-- Witness for C7 at the entry with every element missing. -/
theorem parse_fallback_defaults_witness :
    parseArxivResponse (AtomDoc.mk [entryEmptyE]) = .ok (parseEntry entryEmptyE) ∧
    (parseEntry entryEmptyE).title = "제목 없음" ∧
    (parseEntry entryEmptyE).abstract = formatAbstract "Abstract 없음" ∧
    (parseEntry entryEmptyE).publishDate = "날짜 없음" ∧
    (parseEntry entryEmptyE).paperLink = "" := by
  obtain ⟨h1, h2, h3, h4, h5⟩ := parse_fallback_defaults entryEmptyE []
  exact ⟨h1, h2 rfl, h3 rfl, h4 rfl, h5 rfl⟩

/-- C8: an absent input list yields the empty output, a present list is
filtered in order to the influential records each reshaped, and the
reshaped authors attribute is the comma-joined name list or the empty
string when absent. -/
theorem getInfluentialPapers_spec :
    getInfluentialPapers none = [] ∧
    (∀ ps : List RawPaper, getInfluentialPapers (some ps) =
      ps.foldr (fun p acc => if p.isInfluential then reshape p :: acc else acc) []) ∧
    (∀ p : RawPaper, (reshape p).authors =
      match p.authors with
      | none => ""
      | some as => String.intercalate ", " (as.map RawAuthor.name)) := by
  refine ⟨rfl, ?_, fun p => rfl⟩
  intro ps
  induction ps with
  | nil => rfl
  | cons p ps ih =>
    simp only [getInfluentialPapers] at ih ⊢
    cases hp : p.isInfluential with
    | true => simp [List.filter_cons, hp, ih]
    | false => simp [List.filter_cons, hp, ih]

/-- C9 counterexample: a 200 body carrying a negative numCitedBy passes
through unclamped, so the nonnegativity invariant fails on the code. -/
theorem citation_nonneg_counterexample :
    (fetchCitationInfo (.resp 200 (some dNeg))).numCitedBy = -1 ∧
    ¬ (0 ≤ (fetchCitationInfo (.resp 200 (some dNeg))).numCitedBy) := by
  refine ⟨by decide, by decide⟩

/-- C9 amended: when the body fields are absent or nonnegative, the
returned counts are nonnegative, and on a 200 body an absent field yields
exactly 0. -/
theorem fetchCitationInfo_counts (body : Option CitationData)
    (hcb : ∀ d v, body = some d → d.numCitedBy = some v → 0 ≤ v)
    (hcc : ∀ d v, body = some d → d.numCiting = some v → 0 ≤ v) :
    0 ≤ (fetchCitationInfo .netThrow).numCitedBy ∧
    0 ≤ (fetchCitationInfo .netThrow).numCiting ∧
    ∀ status : Nat,
      0 ≤ (fetchCitationInfo (.resp status body)).numCitedBy ∧
      0 ≤ (fetchCitationInfo (.resp status body)).numCiting ∧
      (∀ d, body = some d → status = 200 →
        (d.numCitedBy = none → (fetchCitationInfo (.resp status body)).numCitedBy = 0) ∧
        (d.numCiting = none → (fetchCitationInfo (.resp status body)).numCiting = 0)) := by
  refine ⟨by simp [fetchCitationInfo, zeroCitationInfo], by simp [fetchCitationInfo, zeroCitationInfo], ?_⟩
  intro status
  by_cases h200 : status = 200
  · subst h200
    cases hb : body with
    | none =>
      refine ⟨by simp [fetchCitationInfo, zeroCitationInfo], by simp [fetchCitationInfo, zeroCitationInfo], ?_⟩
      intro d hd
      exact absurd hd (by simp)
    | some d =>
      refine ⟨?_, ?_, ?_⟩
      · cases hv : d.numCitedBy with
        | none => simp [fetchCitationInfo, jsOrZero, hv]
        | some v => simpa [fetchCitationInfo, jsOrZero, hv] using hcb d v hb hv
      · cases hv : d.numCiting with
        | none => simp [fetchCitationInfo, jsOrZero, hv]
        | some v => simpa [fetchCitationInfo, jsOrZero, hv] using hcc d v hb hv
      · intro d2 hd2 _
        injection hd2 with hdd
        subst hdd
        constructor
        · intro hv
          simp [fetchCitationInfo, jsOrZero, hv]
        · intro hv
          simp [fetchCitationInfo, jsOrZero, hv]
  · refine ⟨by simp [fetchCitationInfo, h200, zeroCitationInfo],
      by simp [fetchCitationInfo, h200, zeroCitationInfo], ?_⟩
    intro d hd h2
    exact absurd h2 h200

/-- Witness for C9 amended: an all-absent 200 body yields the count 0. -/
theorem fetchCitationInfo_counts_witness :
    0 ≤ (fetchCitationInfo (.resp 200 (some dNone))).numCitedBy ∧
    (fetchCitationInfo (.resp 200 (some dNone))).numCitedBy = 0 :=
  ⟨((fetchCitationInfo_counts (some dNone)
      (fun d v hd hv => by injection hd with h; subst h; exact absurd hv (by simp [dNone]))
      (fun d v hd hv => by injection hd with h; subst h; exact absurd hv (by simp [dNone]))).2.2 200).1,
   (((fetchCitationInfo_counts (some dNone)
      (fun d v hd hv => by injection hd with h; subst h; exact absurd hv (by simp [dNone]))
      (fun d v hd hv => by injection hd with h; subst h; exact absurd hv (by simp [dNone]))).2.2 200).2.2
      dNone rfl rfl).1 rfl⟩

/-- C10: with no author name elements the authors field comes out as the
empty string, with no literal fallback, while the fetch still succeeds. -/
theorem fetch_authors_empty (idstr : String) (hid : idstr ≠ "") (e : AtomEntry)
    (rest : List AtomEntry) (h : e.authorNames = []) :
    fetchArxivMetadata (some idstr) 200 (AtomDoc.mk (e :: rest)) = .ok (parseEntry e) ∧
    (parseEntry e).authors = "" := by
  constructor
  · simp [fetchArxivMetadata, hid, parseArxivResponse]
  · have hdef : (parseEntry e).authors = String.intercalate ", " e.authorNames := rfl
    rw [hdef, h]
    rfl

/-- Witness for C10 at the entry with no authors. -/
theorem fetch_authors_empty_witness :
    fetchArxivMetadata (some "2404.16260") 200 (AtomDoc.mk [entryEmptyE]) =
      .ok (parseEntry entryEmptyE) ∧
    (parseEntry entryEmptyE).authors = "" :=
  fetch_authors_empty "2404.16260" (by decide) entryEmptyE [] rfl
